import Mathlib

/-!
Verification development for the `wb_abc` repository.

Shallow embedding of the core logic:
* `src/backend/src/wb/services/abc_analytics.py` — `calculate_abc_analysis`
  (ABC / Pareto classification of orders by revenue contribution);
* `src/backend/src/wb/routers/orders.py` — `get_orders`
  (date-range validation, fetch dispatch, end-date filtering, empty check);
* `src/backend/src/wb/clients/core.py` — `APIClient.fetch`
  (classification of HTTP outcomes into the single `FetchError` exception).

Modelling conventions:
* Python floats are modelled as exact rationals (`Rat`); `round(x, 2)` is
  modelled as banker's rounding (round-half-to-even) of `100 * x`, matching
  CPython's tie-breaking rule.
* Calendar dates are modelled as integer day ordinals (days since an epoch);
  datetimes (`last_change_date`) as integer seconds, with midnight of day `d`
  at `d * 86400`.  `timedelta(days=1, seconds=-1)` becomes `+ 86400 - 1`.
* The Python `dict` (insertion-ordered in CPython) keyed by `nm_id` is
  modelled as an association list in first-insertion order, updated in place.
* Python's stable `sorted(..., key=..., reverse=True)` is modelled by
  `List.insertionSort` with the relation `b.revenue ≤ a.revenue`, which is a
  stable descending sort — extensionally equal to CPython's stable sort.
-/

namespace WB

/-- The fields of `OrderItem` (src/backend/src/wb/schemas.py) that the core
logic reads: `last_change_date` (router filter), the descriptive fields,
`nm_id`, `price_with_disc` and `is_cancel` (aggregation).  The remaining
fields of the Pydantic model are never inspected by the verified code paths
and are omitted.  `last_change_date` is in integer seconds. -/
structure OrderRec where
  last_change_date : Int := 0
  supplier_article : String := ""
  nm_id : Int := 0
  barcode : String := ""
  subject : String := ""
  brand : String := ""
  price_with_disc : Rat := 0
  is_cancel : Bool := false
deriving DecidableEq, Repr

/-- The `Literal["A", "B", "C"]` category of `ABCItem`. -/
inductive Category where
  | A
  | B
  | C
deriving DecidableEq, Repr

/-- Model of `ABCItem` (src/backend/src/wb/schemas.py): one row of the ABC report. -/
structure ABCItem where
  supplier_article : String
  nm_id : Int
  barcode : String
  subject : String
  brand : String
  category : Category
  orders_count : Nat
  revenue : Rat
  revenue_share : Rat
  cumulative_share : Rat
deriving DecidableEq, Repr

/-- Banker's rounding to an integer (CPython `round`): round half to even. -/
def roundHalfEven (x : Rat) : Int :=
  if x - x.floor < 1 / 2 then x.floor
  else if 1 / 2 < x - x.floor then x.floor + 1
  else if x.floor % 2 = 0 then x.floor else x.floor + 1

/-- Python `round(x, 2)`: round to two decimal places, ties to even. -/
def round2 (x : Rat) : Rat :=
  (roundHalfEven (100 * x) : Rat) / 100

/-- The per-product accumulator record built by `calculate_abc_analysis`
(the `defaultdict` value: descriptive fields, order count, revenue). -/
structure Agg where
  supplier_article : String
  barcode : String
  subject : String
  brand : String
  orders_count : Nat
  revenue : Rat
deriving DecidableEq, Repr

/-- The `defaultdict` default factory value. -/
def emptyAgg : Agg :=
  { supplier_article := "", barcode := "", subject := "", brand := ""
    orders_count := 0, revenue := 0 }

/-- One loop iteration of the aggregation loop of `calculate_abc_analysis`
applied to the accumulator of `order.nm_id`:

    if not item["supplier_article"]:
        item["supplier_article"] = order.supplier_article
        ... (barcode, subject, brand)
    item["orders_count"] += 1
    item["revenue"] += order.price_with_disc
-/
def updAgg (a : Agg) (o : OrderRec) : Agg :=
  let a :=
    if a.supplier_article = "" then
      { a with supplier_article := o.supplier_article, barcode := o.barcode
               subject := o.subject, brand := o.brand }
    else a
  { a with orders_count := a.orders_count + 1
           revenue := a.revenue + o.price_with_disc }

/-- In-place update of the insertion-ordered dict: if key `k` is present,
update its value in place (keeping its position); otherwise append the new
entry at the end (CPython dict insertion order). -/
def updateAssoc : List (Int × Agg) → Int → OrderRec → List (Int × Agg)
  | [], k, o => [(k, updAgg emptyAgg o)]
  | (k', a) :: rest, k, o =>
    if k' = k then (k', updAgg a o) :: rest
    else (k', a) :: updateAssoc rest k o

/-- The aggregation loop: `for order in filtered_orders: ...` over the
`defaultdict`, producing the per-product accumulators in first-encounter
order of `nm_id`. -/
def aggregate (orders : List OrderRec) : List (Int × Agg) :=
  orders.foldl (fun acc o => updateAssoc acc o.nm_id o) []

/-- Model of `total_revenue = sum(item["revenue"] for item in aggregated.values())`. -/
def total_revenue (orders : List OrderRec) : Rat :=
  (aggregate orders).foldl (fun s p => s + p.2.revenue) 0

/-- Model of `sorted(aggregated.items(), key=lambda x: x[1]["revenue"], reverse=True)`:
a stable sort, descending by revenue. -/
def sortRevDesc (l : List (Int × Agg)) : List (Int × Agg) :=
  l.insertionSort (fun a b => b.2.revenue ≤ a.2.revenue)

/-- The final emission loop of `calculate_abc_analysis`: walk the sorted
per-product list accumulating `cumulative_share`, assign the category from
the (unrounded) running cumulative share, and emit rounded values. -/
def emit (total ta tb : Rat) : Rat → List (Int × Agg) → List ABCItem
  | _, [] => []
  | cum, (k, d) :: rest =>
    let revenue_share := d.revenue / total * 100
    let cum2 := cum + revenue_share
    let category :=
      if cum2 ≤ ta then Category.A
      else if cum2 ≤ tb then Category.B
      else Category.C
    { supplier_article := d.supplier_article, nm_id := k, barcode := d.barcode
      subject := d.subject, brand := d.brand, category := category
      orders_count := d.orders_count, revenue := round2 d.revenue
      revenue_share := round2 revenue_share
      cumulative_share := round2 cum2 } :: emit total ta tb cum2 rest

/-- The initial cancelled-order filter of `calculate_abc_analysis`. -/
def filtered_orders (orders : List OrderRec) (exclude_cancelled : Bool) :
    List OrderRec :=
  orders.filter (fun o => !(exclude_cancelled && o.is_cancel))

/-- Model of `calculate_abc_analysis`
(src/backend/src/wb/services/abc_analytics.py, lines 44-110). -/
def calculate_abc_analysis (orders : List OrderRec)
    (threshold_a : Rat := 80) (threshold_b : Rat := 95)
    (exclude_cancelled : Bool := true) : List ABCItem :=
  let filtered := filtered_orders orders exclude_cancelled
  if filtered = [] then []
  else
    let total := total_revenue filtered
    if total = 0 then []
    else emit total threshold_a threshold_b 0 (sortRevDesc (aggregate filtered))

/-- Helper for building test orders: only `nm_id` and `price_with_disc` set. -/
def mkOrder (id : Int) (price : Rat) : OrderRec :=
  { nm_id := id, price_with_disc := price }

/-! ## The fetch layer (src/backend/src/wb/clients/core.py) -/

/-- Model of `FetchError` (src/backend/src/wb/clients/core.py, line 12): the single
exception class raised by `APIClient.fetch` for both non-2xx HTTP statuses
and transport-level failures; it carries only a message string. -/
inductive FetchException where
  | fetchError (msg : String)
deriving DecidableEq, Repr

/-- Outcome of the underlying `httpx` request inside `APIClient.fetch`:
a 2xx response with a JSON body (abstracted as a string), an
`httpx.HTTPStatusError` raised by `raise_for_status` with the numeric
status and the response text, or an `httpx.RequestError` (connection,
timeout, DNS, TLS failure) with a cause description. -/
inductive HttpOutcome where
  | success (respBody : String)
  | statusError (status : Nat) (text : String)
  | requestError (details : String)
deriving DecidableEq, Repr

/-- The error-classification logic of `APIClient.fetch`
(src/backend/src/wb/clients/core.py, lines 148-167), for an initialized
client.  `params` and `reqBody` stand for the textual rendering of the
request parameters and JSON body inside the Python f-strings. -/
def fetch (url params reqBody : String) (outcome : HttpOutcome) :
    Except FetchException String :=
  match outcome with
  | .success b => .ok b
  | .statusError status text =>
    .error (.fetchError ("Request failed (url=" ++ url ++ ", params=" ++ params
      ++ ", body=" ++ reqBody ++ "), status=" ++ toString status
      ++ ", response=" ++ text))
  | .requestError details =>
    .error (.fetchError ("HTTP client error for request url=" ++ url
      ++ ". Details: " ++ details))

/-! ## The order-query orchestrator (src/backend/src/wb/routers/orders.py) -/

/-- Model of `HTTPException(status_code=400, detail=...)` as raised by `get_orders`;
both error sites use status 400 and differ only in the detail string. -/
inductive HTTPExc where
  | badRequest (detail : String)
deriving DecidableEq, Repr

/-- The "report older than 90 days" error (orders.py, lines 52-55). -/
def rangeTooOldError : HTTPExc :=
  .badRequest "Нельзя выгрузить отчет старше чем за 90 дней"

/-- The "empty order list" error (orders.py, lines 66-69). -/
def emptyOrdersError : HTTPExc :=
  .badRequest "List of orders is empty."

/-- Model of `DateRange` (schemas.py): required start date, optional end date.
Dates are modelled as integer day ordinals (the `strptime` parsing of the
validated `YYYY-MM-DD` strings is abstracted away). -/
structure DateRangeQ where
  date_from : Int
  date_to : Option Int
deriving DecidableEq, Repr

/-- Model of `datetime.strptime(date_to) + timedelta(days=1, seconds=-1)` as an
integer-second timestamp: the final second of the end calendar day. -/
def dateToEnd (dto : Int) : Int :=
  (dto + 1) * 86400 - 1

/-- The fetch-and-filter portion of `get_orders`
(src/backend/src/wb/routers/orders.py, lines 46-69): the 90-day recency
check, the single fetch (flag 0 when an end date is present, default
flag 1 otherwise), the inclusive end-date filter, and the empty-result
check.  `api dateFrom flag` models `ctx.client.orders.get_orders`
returning the decoded order list; the second component counts how many
fetch calls were issued.  The subsequent ABC computation and the
background database save act on the returned order list and are covered
by `calculate_abc_analysis`. -/
def get_orders (current_date : Int) (date_range : DateRangeQ)
    (api : Int → Int → List OrderRec) :
    Except HTTPExc (List OrderRec) × Nat :=
  let days_diff := current_date - date_range.date_from
  if days_diff > 90 then (.error rangeTooOldError, 0)
  else
    match date_range.date_to with
    | some dto =>
      let orders_response := api date_range.date_from 0
      let orders := orders_response.filter
        (fun o => o.last_change_date ≤ dateToEnd dto)
      if orders = [] then (.error emptyOrdersError, 1) else (.ok orders, 1)
    | none =>
      let orders := api date_range.date_from 1
      if orders = [] then (.error emptyOrdersError, 1) else (.ok orders, 1)

/-! ## Rounding lemmas -/

lemma rat_floor_eq_intFloor (x : ℚ) : Rat.floor x = ⌊x⌋ := rfl

lemma floor_eval {x : ℚ} {f : ℤ} (h1 : (f : ℚ) ≤ x) (h2 : x < f + 1) :
    Rat.floor x = f := by
  rw [rat_floor_eq_intFloor, Int.floor_eq_iff]
  exact ⟨h1, by exact_mod_cast h2⟩

/-- Evaluation of `roundHalfEven` at an integer value. -/
lemma rhe_int {x : ℚ} {n : ℤ} (h : x = (n : ℚ)) : roundHalfEven x = n := by
  subst h
  unfold roundHalfEven
  rw [floor_eval le_rfl (by norm_num)]
  norm_num

/-- Evaluation of `roundHalfEven` when the fractional part is below 1/2. -/
lemma rhe_lt_half {x : ℚ} {f : ℤ} (h1 : (f : ℚ) ≤ x) (h2 : x < f + 1)
    (h3 : x - f < 1 / 2) : roundHalfEven x = f := by
  unfold roundHalfEven
  rw [floor_eval h1 h2]
  rw [if_pos (by linarith)]

/-- Evaluation of `roundHalfEven` when the fractional part is above 1/2. -/
lemma rhe_gt_half {x : ℚ} {f : ℤ} (h1 : (f : ℚ) ≤ x) (h2 : x < f + 1)
    (h3 : 1 / 2 < x - f) : roundHalfEven x = f + 1 := by
  unfold roundHalfEven
  rw [floor_eval h1 h2]
  rw [if_neg (by linarith), if_pos (by linarith)]

lemma roundHalfEven_le (x : ℚ) : (roundHalfEven x : ℚ) ≤ Rat.floor x + 1 := by
  unfold roundHalfEven
  split_ifs <;> push_cast <;> simp

lemma le_roundHalfEven (x : ℚ) : (Rat.floor x : ℚ) ≤ roundHalfEven x := by
  unfold roundHalfEven
  split_ifs <;> push_cast <;> simp

lemma roundHalfEven_mono {x y : ℚ} (h : x ≤ y) :
    roundHalfEven x ≤ roundHalfEven y := by
  have hfl : Rat.floor x ≤ Rat.floor y := by
    rw [rat_floor_eq_intFloor, rat_floor_eq_intFloor]
    exact Int.floor_le_floor h
  rcases lt_or_eq_of_le hfl with hlt | heq
  · have h1 : (roundHalfEven x : ℚ) ≤ Rat.floor x + 1 := roundHalfEven_le x
    have h2 : (Rat.floor y : ℚ) ≤ roundHalfEven y := le_roundHalfEven y
    have : (Rat.floor x : ℚ) + 1 ≤ (Rat.floor y : ℚ) := by exact_mod_cast hlt
    exact_mod_cast le_trans h1 (le_trans this h2)
  · unfold roundHalfEven
    rw [← heq]
    have hfr : x - Rat.floor x ≤ y - Rat.floor x := by linarith
    split_ifs <;> first | omega | (exfalso; linarith)

lemma round2_mono {x y : ℚ} (h : x ≤ y) : round2 x ≤ round2 y := by
  unfold round2
  have h1 : roundHalfEven (100 * x) ≤ roundHalfEven (100 * y) :=
    roundHalfEven_mono (by linarith)
  have h2 : ((roundHalfEven (100 * x) : ℤ) : ℚ) ≤ (roundHalfEven (100 * y) : ℚ) := by
    exact_mod_cast h1
  linarith

/-! ## Aggregation lemmas -/

/-- Association-list lookup, mirroring the dict read `aggregated[nm_id]`. -/
def lookupAgg (k : Int) : List (Int × Agg) → Option Agg
  | [] => none
  | (k', a) :: rest => if k' = k then some a else lookupAgg k rest

/-- The keys of the aggregation dict, in insertion order. -/
def keysOf (l : List (Int × Agg)) : List Int :=
  l.map Prod.fst

/-- The descriptive fields of an accumulator. -/
def descOf (a : Agg) : String × String × String × String :=
  (a.supplier_article, a.barcode, a.subject, a.brand)

/-- The descriptive fields of an order record. -/
def descOfRec (o : OrderRec) : String × String × String × String :=
  (o.supplier_article, o.barcode, o.subject, o.brand)

lemma updAgg_desc (a : Agg) (o : OrderRec) :
    descOf (updAgg a o) =
      if a.supplier_article = "" then descOfRec o else descOf a := by
  unfold updAgg descOf descOfRec
  split_ifs <;> rfl

lemma updAgg_article (a : Agg) (o : OrderRec) :
    (updAgg a o).supplier_article =
      if a.supplier_article = "" then o.supplier_article
      else a.supplier_article := by
  unfold updAgg
  split_ifs <;> rfl

lemma updAgg_revenue (a : Agg) (o : OrderRec) :
    (updAgg a o).revenue = a.revenue + o.price_with_disc := by
  unfold updAgg
  split_ifs <;> rfl

lemma updateAssoc_ne_nil (l : List (Int × Agg)) (k : Int) (o : OrderRec) :
    updateAssoc l k o ≠ [] := by
  cases l with
  | nil => simp [updateAssoc]
  | cons p rest =>
    obtain ⟨k', a⟩ := p
    simp only [updateAssoc]
    split <;> simp

lemma foldl_updateAssoc_ne_nil (l : List OrderRec) (acc : List (Int × Agg))
    (h : acc ≠ []) :
    l.foldl (fun acc o => updateAssoc acc o.nm_id o) acc ≠ [] := by
  induction l generalizing acc with
  | nil => simpa
  | cons o rest ih => exact ih _ (updateAssoc_ne_nil acc o.nm_id o)

lemma aggregate_ne_nil {l : List OrderRec} (h : l ≠ []) : aggregate l ≠ [] := by
  cases l with
  | nil => exact absurd rfl h
  | cons o rest =>
    unfold aggregate
    rw [List.foldl_cons]
    exact foldl_updateAssoc_ne_nil rest _ (updateAssoc_ne_nil [] o.nm_id o)

lemma lookupAgg_updateAssoc_self (l : List (Int × Agg)) (k : Int) (o : OrderRec) :
    lookupAgg k (updateAssoc l k o) =
      some (updAgg ((lookupAgg k l).getD emptyAgg) o) := by
  induction l with
  | nil => simp [updateAssoc, lookupAgg]
  | cons p rest ih =>
    obtain ⟨k', a⟩ := p
    by_cases hk : k' = k
    · subst hk
      simp [updateAssoc, lookupAgg]
    · simp [updateAssoc, lookupAgg, hk, ih]

lemma lookupAgg_updateAssoc_ne (l : List (Int × Agg)) {k k' : Int}
    (h : k' ≠ k) (o : OrderRec) :
    lookupAgg k' (updateAssoc l k o) = lookupAgg k' l := by
  induction l with
  | nil => simp [updateAssoc, lookupAgg, Ne.symm h]
  | cons p rest ih =>
    obtain ⟨k0, a⟩ := p
    by_cases hk : k0 = k
    · subst hk
      have hne : ¬k0 = k' := Ne.symm h
      simp [updateAssoc, lookupAgg, hne]
    · simp [updateAssoc, lookupAgg, hk, ih]

lemma keys_updateAssoc (l : List (Int × Agg)) (k : Int) (o : OrderRec) :
    keysOf (updateAssoc l k o) =
      if k ∈ keysOf l then keysOf l else keysOf l ++ [k] := by
  induction l with
  | nil => simp [updateAssoc, keysOf]
  | cons p rest ih =>
    obtain ⟨k', a⟩ := p
    by_cases hk : k' = k
    · subst hk
      simp [updateAssoc, keysOf]
    · have h1 : updateAssoc ((k', a) :: rest) k o =
          (k', a) :: updateAssoc rest k o := by
        simp [updateAssoc, hk]
      have h2 : keysOf ((k', a) :: updateAssoc rest k o) =
          k' :: keysOf (updateAssoc rest k o) := rfl
      have h3 : keysOf ((k', a) :: rest) = k' :: keysOf rest := rfl
      rw [h1, h2, h3, ih]
      have hne : ¬(k = k') := fun hh => hk hh.symm
      by_cases hmem : k ∈ keysOf rest
      · rw [if_pos hmem, if_pos (List.mem_cons.mpr (Or.inr hmem))]
      · rw [if_neg hmem, if_neg (by simp [List.mem_cons, hne, hmem]),
          List.cons_append]

lemma keys_nodup_updateAssoc {l : List (Int × Agg)} (h : (keysOf l).Nodup)
    (k : Int) (o : OrderRec) : (keysOf (updateAssoc l k o)).Nodup := by
  rw [keys_updateAssoc]
  by_cases hmem : k ∈ keysOf l
  · rwa [if_pos hmem]
  · rw [if_neg hmem]
    simp [List.nodup_append, h, hmem]

lemma aggregate_keys_nodup (l : List OrderRec) :
    (keysOf (aggregate l)).Nodup := by
  suffices hgen : ∀ (acc : List (Int × Agg)), (keysOf acc).Nodup →
      (keysOf (l.foldl (fun acc o => updateAssoc acc o.nm_id o) acc)).Nodup by
    exact hgen [] (by simp [keysOf])
  induction l with
  | nil => intro acc h; exact h
  | cons o rest ih =>
    intro acc h
    exact ih _ (keys_nodup_updateAssoc h o.nm_id o)

lemma lookupAgg_eq_of_mem {l : List (Int × Agg)} (hnd : (keysOf l).Nodup)
    {k : Int} {a : Agg} (hm : (k, a) ∈ l) : lookupAgg k l = some a := by
  induction l with
  | nil => cases hm
  | cons p rest ih =>
    obtain ⟨k', a'⟩ := p
    rcases List.mem_cons.mp hm with heq | hmem
    · obtain ⟨rfl, rfl⟩ := Prod.mk.injEq .. ▸ heq
      simp [lookupAgg]
    · have hpair := List.nodup_cons.mp (show (k' :: keysOf rest).Nodup from hnd)
      have hk : ¬k' = k := by
        intro hh
        subst hh
        exact hpair.1 (by simpa [keysOf] using List.mem_map_of_mem Prod.fst hmem)
      simp [lookupAgg, hk, ih hpair.2 hmem]

lemma mem_of_lookupAgg {l : List (Int × Agg)} {k : Int} {a : Agg}
    (h : lookupAgg k l = some a) : (k, a) ∈ l := by
  induction l with
  | nil => cases h
  | cons p rest ih =>
    obtain ⟨k', a'⟩ := p
    by_cases hk : k' = k
    · subst hk
      rw [lookupAgg, if_pos rfl] at h
      obtain rfl := Option.some.injEq .. ▸ h
      exact List.mem_cons_self _ _
    · rw [lookupAgg, if_neg hk] at h
      exact List.mem_cons_of_mem _ (ih h)

/-- Characterization of the aggregation: the accumulator stored at key `k`
is the fold of `updAgg` over exactly the records of the group of `k`, in
input order. -/
lemma lookupAgg_foldl (l : List OrderRec) (acc : List (Int × Agg)) (k : Int) :
    lookupAgg k (l.foldl (fun acc o => updateAssoc acc o.nm_id o) acc) =
      match lookupAgg k acc with
      | some a => some ((l.filter (fun o => o.nm_id = k)).foldl updAgg a)
      | none =>
        if (l.filter (fun o => o.nm_id = k)) = [] then none
        else some ((l.filter (fun o => o.nm_id = k)).foldl updAgg emptyAgg) := by
  induction l generalizing acc with
  | nil =>
    cases h : lookupAgg k acc <;> simp [h]
  | cons o rest ih =>
    rw [List.foldl_cons, ih]
    by_cases ho : o.nm_id = k
    · have hself : lookupAgg k (updateAssoc acc o.nm_id o) =
          some (updAgg ((lookupAgg k acc).getD emptyAgg) o) := by
        rw [ho]
        exact lookupAgg_updateAssoc_self acc k o
      rw [hself]
      have hfil : (o :: rest).filter (fun o => o.nm_id = k) =
          o :: rest.filter (fun o => o.nm_id = k) := by
        simp [List.filter_cons, ho]
      cases h : lookupAgg k acc with
      | some a => simp [h, hfil]
      | none => simp [h, hfil]
    · have hne : lookupAgg k (updateAssoc acc o.nm_id o) = lookupAgg k acc :=
        lookupAgg_updateAssoc_ne acc (Ne.symm ho) o
      rw [hne]
      have hfil : (o :: rest).filter (fun o => o.nm_id = k) =
          rest.filter (fun o => o.nm_id = k) := by
        simp [List.filter_cons, ho]
      rw [hfil]

lemma lookupAgg_aggregate (l : List OrderRec) (k : Int) :
    lookupAgg k (aggregate l) =
      if (l.filter (fun o => o.nm_id = k)) = [] then none
      else some ((l.filter (fun o => o.nm_id = k)).foldl updAgg emptyAgg) := by
  have h := lookupAgg_foldl l [] k
  simpa [aggregate, lookupAgg] using h

lemma mem_updateAssoc_revenue_nonneg {l : List (Int × Agg)} {k : Int}
    {o : OrderRec} (hl : ∀ p ∈ l, 0 ≤ p.2.revenue)
    (ho : 0 ≤ o.price_with_disc) :
    ∀ p ∈ updateAssoc l k o, 0 ≤ p.2.revenue := by
  induction l with
  | nil =>
    intro p hp
    simp only [updateAssoc, List.mem_singleton] at hp
    subst hp
    simp only [updAgg_revenue, emptyAgg]
    linarith
  | cons q rest ih =>
    obtain ⟨k', a⟩ := q
    intro p hp
    by_cases hk : k' = k
    · subst hk
      rw [updateAssoc, if_pos rfl] at hp
      rcases List.mem_cons.mp hp with rfl | hmem
      · have ha : 0 ≤ a.revenue := hl (k', a) (List.mem_cons_self _ _)
        simp only [updAgg_revenue]
        linarith
      · exact hl p (List.mem_cons_of_mem _ hmem)
    · rw [updateAssoc, if_neg hk] at hp
      rcases List.mem_cons.mp hp with rfl | hmem
      · exact hl (k', a) (List.mem_cons_self _ _)
      · exact ih (fun q hq => hl q (List.mem_cons_of_mem _ hq)) p hmem

/-- Every aggregated revenue is nonnegative when every retained record has a
nonnegative price. -/
lemma aggregate_revenue_nonneg {l : List OrderRec}
    (h : ∀ o ∈ l, 0 ≤ o.price_with_disc) :
    ∀ p ∈ aggregate l, 0 ≤ p.2.revenue := by
  suffices hgen : ∀ (acc : List (Int × Agg)), (∀ p ∈ acc, 0 ≤ p.2.revenue) →
      (∀ o ∈ l, 0 ≤ o.price_with_disc) →
      ∀ p ∈ l.foldl (fun acc o => updateAssoc acc o.nm_id o) acc,
        0 ≤ p.2.revenue by
    exact hgen [] (by simp) h
  clear h
  induction l with
  | nil => intro acc hacc _ p hp; exact hacc p hp
  | cons o rest ih =>
    intro acc hacc hl p hp
    refine ih _ ?_ (fun o ho => hl o (List.mem_cons_of_mem _ ho)) p hp
    exact mem_updateAssoc_revenue_nonneg hacc (hl o (List.mem_cons_self _ _))

lemma foldl_add_revenue (l : List (Int × Agg)) (s : ℚ) :
    l.foldl (fun s p => s + p.2.revenue) s =
      s + (l.map (fun p => p.2.revenue)).sum := by
  induction l generalizing s with
  | nil => simp
  | cons p rest ih =>
    rw [List.foldl_cons, ih, List.map_cons, List.sum_cons]
    ring

lemma total_revenue_eq_sum (l : List OrderRec) :
    total_revenue l = ((aggregate l).map (fun p => p.2.revenue)).sum := by
  unfold total_revenue
  rw [foldl_add_revenue]
  ring

/-! ## Descriptive-field lemmas -/

/-- The record whose descriptive fields the aggregation loop ends up
keeping for a group: the first record whose SKU (`supplier_article`) is
non-empty — and when every record of the group has an empty SKU, the last
record of the group. -/
def pickDesc : List OrderRec → Option OrderRec
  | [] => none
  | o :: rest =>
    if o.supplier_article = "" then
      match pickDesc rest with
      | some r => some r
      | none => some o
    else some o

lemma pickDesc_isSome {l : List OrderRec} (h : l ≠ []) :
    ∃ r, pickDesc l = some r := by
  cases l with
  | nil => exact absurd rfl h
  | cons o rest =>
    rw [pickDesc]
    split
    · cases hr : pickDesc rest with
      | some r => exact ⟨r, rfl⟩
      | none => exact ⟨o, rfl⟩
    · exact ⟨o, rfl⟩

lemma foldl_updAgg_desc_of_ne (l : List OrderRec) {a : Agg}
    (h : ¬a.supplier_article = "") : descOf (l.foldl updAgg a) = descOf a := by
  induction l generalizing a with
  | nil => rfl
  | cons o rest ih =>
    rw [List.foldl_cons]
    have harticle : (updAgg a o).supplier_article = a.supplier_article := by
      rw [updAgg_article, if_neg h]
    have hdesc : descOf (updAgg a o) = descOf a := by
      rw [updAgg_desc, if_neg h]
    rw [ih (by rw [harticle]; exact h), hdesc]

lemma foldl_updAgg_desc_of_empty (l : List OrderRec) {a : Agg}
    (h : a.supplier_article = "") :
    descOf (l.foldl updAgg a) =
      match pickDesc l with
      | some r => descOfRec r
      | none => descOf a := by
  induction l generalizing a with
  | nil => rfl
  | cons o rest ih =>
    rw [List.foldl_cons]
    have harticle : (updAgg a o).supplier_article = o.supplier_article := by
      rw [updAgg_article, if_pos h]
    have hdesc : descOf (updAgg a o) = descOfRec o := by
      rw [updAgg_desc, if_pos h]
    by_cases ho : o.supplier_article = ""
    · rw [ih (by rw [harticle]; exact ho)]
      rw [pickDesc, if_pos ho]
      cases hr : pickDesc rest with
      | some r => simp [hr]
      | none => simp [hr, hdesc]
    · rw [foldl_updAgg_desc_of_ne rest (by rw [harticle]; exact ho), hdesc]
      rw [pickDesc, if_neg ho]

/-- The descriptive fields stored for key `k` are those of
`pickDesc` applied to the group of `k`. -/
lemma aggregate_desc {l : List OrderRec} {k : Int} {a : Agg}
    (hm : (k, a) ∈ aggregate l) :
    ∃ r, pickDesc (l.filter (fun o => o.nm_id = k)) = some r ∧
      descOf a = descOfRec r := by
  have hlook := lookupAgg_eq_of_mem (aggregate_keys_nodup l) hm
  rw [lookupAgg_aggregate] at hlook
  by_cases hf : l.filter (fun o => o.nm_id = k) = []
  · rw [if_pos hf] at hlook
    cases hlook
  · rw [if_neg hf] at hlook
    have ha : a = (l.filter (fun o => o.nm_id = k)).foldl updAgg emptyAgg :=
      (Option.some.injEq .. ▸ hlook).symm
    obtain ⟨r, hr⟩ := pickDesc_isSome hf
    refine ⟨r, hr, ?_⟩
    rw [ha, foldl_updAgg_desc_of_empty _ (by rfl), hr]

/-! ## Emission lemmas -/

lemma emit_cons (total ta tb c : ℚ) (k : Int) (d : Agg)
    (rest : List (Int × Agg)) :
    emit total ta tb c ((k, d) :: rest) =
      { supplier_article := d.supplier_article, nm_id := k
        barcode := d.barcode, subject := d.subject, brand := d.brand
        category := if c + d.revenue / total * 100 ≤ ta then Category.A
          else if c + d.revenue / total * 100 ≤ tb then Category.B
          else Category.C
        orders_count := d.orders_count, revenue := round2 d.revenue
        revenue_share := round2 (d.revenue / total * 100)
        cumulative_share := round2 (c + d.revenue / total * 100) } ::
        emit total ta tb (c + d.revenue / total * 100) rest := rfl

lemma emit_nil (total ta tb c : ℚ) : emit total ta tb c [] = [] := rfl

lemma emit_ne_nil {total ta tb c : ℚ} {l : List (Int × Agg)} (h : l ≠ []) :
    emit total ta tb c l ≠ [] := by
  cases l with
  | nil => exact absurd rfl h
  | cons p rest =>
    obtain ⟨k, d⟩ := p
    rw [emit]
    exact List.cons_ne_nil _ _

/-- Every emitted item copies its fields from some aggregated entry, gets
its rounded `cumulative_share` from an unrounded running share `cc`, and
its category from the comparison of that same unrounded `cc` against the
thresholds. -/
lemma emit_mem {total ta tb : ℚ} :
    ∀ {c : ℚ} {l : List (Int × Agg)} {item : ABCItem},
      item ∈ emit total ta tb c l →
      ∃ k d cc, (k, d) ∈ l ∧ item.nm_id = k ∧
        item.supplier_article = d.supplier_article ∧
        item.barcode = d.barcode ∧ item.subject = d.subject ∧
        item.brand = d.brand ∧ item.orders_count = d.orders_count ∧
        item.revenue = round2 d.revenue ∧
        item.revenue_share = round2 (d.revenue / total * 100) ∧
        item.cumulative_share = round2 cc ∧
        item.category = (if cc ≤ ta then Category.A
          else if cc ≤ tb then Category.B else Category.C) := by
  intro c l
  induction l generalizing c with
  | nil => intro item h; cases h
  | cons p rest ih =>
    obtain ⟨k, d⟩ := p
    intro item h
    rw [emit] at h
    rcases List.mem_cons.mp h with rfl | hmem
    · exact ⟨k, d, c + d.revenue / total * 100,
        List.mem_cons_self _ _, rfl, rfl, rfl, rfl, rfl, rfl, rfl, rfl, rfl, rfl⟩
    · obtain ⟨k', d', cc, hmem', hrest⟩ := ih hmem
      exact ⟨k', d', cc, List.mem_cons_of_mem _ hmem', hrest⟩

lemma emit_map_nm_id {total ta tb : ℚ} :
    ∀ (c : ℚ) (l : List (Int × Agg)),
      (emit total ta tb c l).map ABCItem.nm_id = l.map Prod.fst := by
  intro c l
  induction l generalizing c with
  | nil => rfl
  | cons p rest ih =>
    obtain ⟨k, d⟩ := p
    rw [emit, List.map_cons, List.map_cons, ih]

lemma emit_map_revenue {total ta tb : ℚ} :
    ∀ (c : ℚ) (l : List (Int × Agg)),
      (emit total ta tb c l).map ABCItem.revenue =
        l.map (fun p => round2 p.2.revenue) := by
  intro c l
  induction l generalizing c with
  | nil => rfl
  | cons p rest ih =>
    obtain ⟨k, d⟩ := p
    rw [emit, List.map_cons, List.map_cons, ih]

lemma emit_cum_lb {total ta tb : ℚ} {l : List (Int × Agg)}
    (hsh : ∀ p ∈ l, 0 ≤ p.2.revenue / total * 100) :
    ∀ (c : ℚ), ∀ item ∈ emit total ta tb c l,
      round2 c ≤ item.cumulative_share := by
  induction l with
  | nil => intro c item h; cases h
  | cons p rest ih =>
    obtain ⟨k, d⟩ := p
    intro c item h
    rw [emit] at h
    have hd : 0 ≤ d.revenue / total * 100 := hsh (k, d) (List.mem_cons_self _ _)
    rcases List.mem_cons.mp h with rfl | hmem
    · exact round2_mono (by linarith)
    · have h1 : round2 c ≤ round2 (c + d.revenue / total * 100) :=
        round2_mono (by linarith)
      have h2 := ih (fun q hq => hsh q (List.mem_cons_of_mem _ hq))
        (c + d.revenue / total * 100) item hmem
      linarith

lemma emit_pairwise_cum {total ta tb : ℚ} {l : List (Int × Agg)}
    (hsh : ∀ p ∈ l, 0 ≤ p.2.revenue / total * 100) (c : ℚ) :
    (emit total ta tb c l).Pairwise
      (fun a b => a.cumulative_share ≤ b.cumulative_share) := by
  induction l generalizing c with
  | nil => exact List.Pairwise.nil
  | cons p rest ih =>
    obtain ⟨k, d⟩ := p
    rw [emit]
    refine List.Pairwise.cons ?_ (ih (fun q hq => hsh q (List.mem_cons_of_mem _ hq)) _)
    intro item hmem
    exact emit_cum_lb (fun q hq => hsh q (List.mem_cons_of_mem _ hq)) _ item hmem

lemma emit_getLast_cum {total ta tb : ℚ} :
    ∀ (l : List (Int × Agg)) (c : ℚ), l ≠ [] →
      ∃ itm, (emit total ta tb c l).getLast? = some itm ∧
        itm.cumulative_share =
          round2 (c + ((l.map (fun p => p.2.revenue / total * 100)).sum)) := by
  intro l
  induction l with
  | nil => intro c h; exact absurd rfl h
  | cons p rest ih =>
    obtain ⟨k, d⟩ := p
    intro c _
    cases rest with
    | nil =>
      rw [emit_cons, emit_nil]
      refine ⟨_, List.getLast?_singleton _, ?_⟩
      simp
    | cons q rest' =>
      obtain ⟨itm, hlast, hcum⟩ := ih (c + d.revenue / total * 100)
        (List.cons_ne_nil _ _)
      refine ⟨itm, ?_, ?_⟩
      · obtain ⟨q1, q2⟩ := q
        rw [emit_cons, emit_cons, List.getLast?_cons_cons]
        rw [emit_cons] at hlast
        exact hlast
      · rw [hcum]
        simp only [List.map_cons, List.sum_cons]
        congr 1
        ring

/-! ## Sort lemmas -/

lemma revRel_total : ∀ a b : Int × Agg,
    (b.2.revenue ≤ a.2.revenue) ∨ (a.2.revenue ≤ b.2.revenue) := by
  intro a b
  exact (le_total b.2.revenue a.2.revenue)

instance : IsTotal (Int × Agg) (fun a b => b.2.revenue ≤ a.2.revenue) :=
  ⟨revRel_total⟩

instance : IsTrans (Int × Agg) (fun a b => b.2.revenue ≤ a.2.revenue) :=
  ⟨fun _ _ _ hab hbc => le_trans hbc hab⟩

lemma sortRevDesc_perm (l : List (Int × Agg)) :
    List.Perm (sortRevDesc l) l :=
  List.perm_insertionSort _ l

lemma sortRevDesc_sorted (l : List (Int × Agg)) :
    (sortRevDesc l).Sorted (fun a b => b.2.revenue ≤ a.2.revenue) :=
  List.sorted_insertionSort _ l

lemma sortRevDesc_ne_nil {l : List (Int × Agg)} (h : l ≠ []) :
    sortRevDesc l ≠ [] := by
  intro hc
  have := (sortRevDesc_perm l).length_eq
  rw [hc] at this
  exact h (List.length_eq_zero.mp this.symm)



/-! ## First-encounter key order (tie-breaking machinery) -/

lemma keys_updateAssoc_sublist (acc : List (Int × Agg)) (k : Int)
    (o : OrderRec) : List.Sublist (keysOf acc) (keysOf (updateAssoc acc k o)) := by
  rw [keys_updateAssoc]
  by_cases hmem : k ∈ keysOf acc
  · rw [if_pos hmem]
  · rw [if_neg hmem]
    exact List.sublist_append_left _ _

lemma mem_keys_updateAssoc {acc : List (Int × Agg)} {k' : Int} (k : Int)
    (o : OrderRec) (h : k' ∈ keysOf acc) :
    k' ∈ keysOf (updateAssoc acc k o) :=
  (keys_updateAssoc_sublist acc k o).mem h

lemma not_mem_keys_updateAssoc {acc : List (Int × Agg)} {k' k : Int}
    (hne : k' ≠ k) (o : OrderRec) (h : k' ∉ keysOf acc) :
    k' ∉ keysOf (updateAssoc acc k o) := by
  rw [keys_updateAssoc]
  by_cases hmem : k ∈ keysOf acc
  · rwa [if_pos hmem]
  · rw [if_neg hmem]
    intro hc
    rcases List.mem_append.mp hc with h1 | h2
    · exact h h1
    · exact hne (List.mem_singleton.mp h2)

/-- Invariant-based ordering lemma: processing the order list left to right,
if `p`'s first occurrence comes before `q`'s first occurrence among the
still-unprocessed records (and neither is in the accumulator yet), or `p`
is already a key and `q` still to come, or `[p, q]` is already realized in
the accumulator's key order, then `[p, q]` is a sublist of the final keys. -/
lemma keys_foldl_pair_sublist :
    ∀ (l : List OrderRec) (acc : List (Int × Agg)) (p q : Int), p ≠ q →
      (List.Sublist [p, q] (keysOf acc)
        ∨ (p ∈ keysOf acc ∧ q ∉ keysOf acc ∧ q ∈ l.map OrderRec.nm_id)
        ∨ (p ∉ keysOf acc ∧ q ∉ keysOf acc ∧
            ∃ l1 l2, l.map OrderRec.nm_id = l1 ++ p :: l2 ∧
              p ∉ l1 ∧ q ∉ l1 ∧ q ∈ l2)) →
      List.Sublist [p, q] (keysOf (l.foldl (fun acc o => updateAssoc acc o.nm_id o) acc))
  | [], acc, p, q, _, h => by
    rcases h with h1 | h2 | h3
    · exact h1
    · simp at h2
    · obtain ⟨_, _, l1, l2, hsplit, _⟩ := h3
      exact absurd hsplit (by simp)
  | o :: rest, acc, p, q, hpq, h => by
    rw [List.foldl_cons]
    set k := o.nm_id with hk
    apply keys_foldl_pair_sublist rest _ p q hpq
    rcases h with h1 | ⟨hp, hq, hqmem⟩ | ⟨hp, hq, l1, l2, hsplit, hpl1, hql1, hql2⟩
    · exact Or.inl (h1.trans (keys_updateAssoc_sublist acc k o))
    · by_cases hkq : k = q
      · subst hkq
        left
        rw [keys_updateAssoc, if_neg hq]
        have hpsub : List.Sublist [p] (keysOf acc) := List.singleton_sublist.mpr hp
        have : List.Sublist ([p] ++ [k]) (keysOf acc ++ [k]) :=
          List.Sublist.append hpsub (List.Sublist.refl _)
        exact this
      · right; left
        refine ⟨mem_keys_updateAssoc k o hp,
          not_mem_keys_updateAssoc (fun hh => hkq hh.symm) o hq, ?_⟩
        have hqmem' : q ∈ k :: rest.map OrderRec.nm_id := by
          rw [List.map_cons] at hqmem
          exact hqmem
        rcases List.mem_cons.mp hqmem' with h1 | h2
        · exact absurd h1.symm hkq
        · exact h2
    · cases l1 with
      | nil =>
        have hkp : k = p := by
          have := hsplit
          simp only [List.map_cons, List.nil_append] at this
          exact (List.cons.injEq .. ▸ this).1
        subst hkp
        right; left
        refine ⟨?_, not_mem_keys_updateAssoc (fun hh => hpq hh.symm) o hq, ?_⟩
        · rw [keys_updateAssoc, if_neg hp]
          simp
        · have : rest.map OrderRec.nm_id = l2 := by
            have := hsplit
            simp only [List.map_cons, List.nil_append] at this
            exact (List.cons.injEq .. ▸ this).2
          rw [this]
          exact hql2
      | cons x l1' =>
        have hx : k = x ∧ rest.map OrderRec.nm_id = l1' ++ p :: l2 := by
          have := hsplit
          simp only [List.map_cons, List.cons_append] at this
          exact ⟨(List.cons.injEq .. ▸ this).1, (List.cons.injEq .. ▸ this).2⟩
        have hkp : p ≠ k := by
          intro hh
          rw [hx.1] at hh
          exact hpl1 (hh ▸ List.mem_cons_self x l1')
        have hkq : q ≠ k := by
          intro hh
          rw [hx.1] at hh
          exact hql1 (hh ▸ List.mem_cons_self x l1')
        right; right
        exact ⟨not_mem_keys_updateAssoc hkp o hp,
          not_mem_keys_updateAssoc hkq o hq,
          l1', l2, hx.2, fun hc => hpl1 (List.mem_cons_of_mem _ hc),
          fun hc => hql1 (List.mem_cons_of_mem _ hc), hql2⟩

/-- Lift a key-level pair sublist to the pair level using key uniqueness. -/
lemma pair_sublist_of_keys :
    ∀ {l : List (Int × Agg)}, (keysOf l).Nodup →
      ∀ {p q : Int} {ap aq : Agg}, List.Sublist [p, q] (keysOf l) →
        lookupAgg p l = some ap → lookupAgg q l = some aq →
        List.Sublist [(p, ap), (q, aq)] l := by
  intro l
  induction l with
  | nil =>
    intro _ p q ap aq hs
    simp [keysOf] at hs
  | cons e rest ih =>
    obtain ⟨k, a⟩ := e
    intro hnd p q ap aq hs hp hq
    have hpair := List.nodup_cons.mp (show (k :: keysOf rest).Nodup from hnd)
    have hs2 : List.Sublist [p, q] (k :: keysOf rest) := hs
    cases hs2 with
    | cons _ htail =>
      have hpk : ¬k = p := by
        intro hh
        subst hh
        exact hpair.1 (htail.mem (List.mem_cons_self _ _))
      have hqk : ¬k = q := by
        intro hh
        subst hh
        exact hpair.1 (htail.mem (List.mem_cons_of_mem _ (List.mem_cons_self _ _)))
      rw [lookupAgg, if_neg hpk] at hp
      rw [lookupAgg, if_neg hqk] at hq
      exact (ih hpair.2 htail hp hq).cons _
    | cons₂ _ htail =>
      rw [lookupAgg, if_pos rfl] at hp
      obtain rfl : a = ap := Option.some.injEq .. ▸ hp
      have hqk : ¬k = q := by
        intro hh
        subst hh
        exact hpair.1 (htail.mem (List.mem_cons_self _ _))
      rw [lookupAgg, if_neg hqk] at hq
      exact (List.singleton_sublist.mpr (mem_of_lookupAgg hq)).cons₂ _

/-- The order collection `get_orders` ends up with after its single fetch
and (when an end date is present) the end-date filter, right before the
empty check (orders.py, lines 57-63). -/
def fetched_then_filtered (date_range : DateRangeQ)
    (api : Int → Int → List OrderRec) : List OrderRec :=
  match date_range.date_to with
  | some dto => (api date_range.date_from 0).filter
      (fun o => o.last_change_date ≤ dateToEnd dto)
  | none => api date_range.date_from 1

/-! ## Claims about the orchestrator and the fetch layer -/

/-- Claim C3, counterexample: The claim asserts that a start date more than
90 days away from the current date *in either direction* — in particular
the future date "2099-01-01" — fails with the range-too-old error and no
fetch.  With the current date 2026-10-12 (day ordinal 20738) and start
date 2099-01-01 (day ordinal 47117), `days_diff = 20738 - 47117 < 0` is
not `> 90`, so the code performs the fetch (one call) and succeeds. -/
theorem C3_counterexample :
    (47117 - 20738 > 90) ∧
    get_orders 20738 ⟨47117, none⟩ (fun _ _ => [mkOrder 1 1]) =
      (.ok [mkOrder 1 1], 1) := by
  constructor
  · decide
  · rfl

/-- Claim C3, amended: Only a start date more than 90 days *in the past*
(`current_date - date_from > 90`) fails with the range-too-old
`HTTPException`, and then no fetch call is made; a start date in the
future, such as "2099-01-01", does not trigger the check. -/
theorem C3_theorem (current_date : Int) (date_range : DateRangeQ)
    (api : Int → Int → List OrderRec)
    (h : current_date - date_range.date_from > 90) :
    get_orders current_date date_range api = (.error rangeTooOldError, 0) := by
  simp only [get_orders]
  rw [if_pos h]

/-- Witness for C3: a start date 100 days in the past is rejected with
zero fetch calls. -/
theorem C3_witness :
    ((100 : Int) - 0 > 90) ∧
    get_orders 100 ⟨0, none⟩ (fun _ _ => []) = (.error rangeTooOldError, 0) :=
  ⟨by decide, C3_theorem 100 ⟨0, none⟩ (fun _ _ => []) (by decide)⟩

/-- Claim C4, counterexample: The claim asserts that a non-2xx status and a
transport failure surface as two *distinct* inspectable error conditions,
never collapsed into one generic failure.  In the code both raise the same
single exception class `FetchError` (whose only payload is a message
string): an HTTP 429 and a connection timeout both produce a
`FetchError`, and every `FetchError` value is of that one kind, so the
caller cannot distinguish the two conditions by the kind of error. -/
theorem C4_counterexample :
    (∃ m, fetch "v1/supplier/orders" "params" "body"
        (.statusError 429 "too many requests") = .error (.fetchError m)) ∧
    (∃ m, fetch "v1/supplier/orders" "params" "body"
        (.requestError "connection timed out") = .error (.fetchError m)) ∧
    (∀ e : FetchException, ∃ m, e = .fetchError m) := by
  refine ⟨⟨_, rfl⟩, ⟨_, rfl⟩, fun e => ?_⟩
  cases e with
  | fetchError m => exact ⟨m, rfl⟩

/-- Claim C4, amended: Both failure kinds raise the single `FetchError`
exception class; the non-2xx case carries the URL, the request
parameters/body, the numeric status and the raw response body in its
message, while the transport case carries the URL and the cause
description in its message — the two conditions are distinguishable only
by message content, not by error type. -/
theorem C4_theorem (url params reqBody text details : String) (status : Nat) :
    fetch url params reqBody (.statusError status text) =
      .error (.fetchError ("Request failed (url=" ++ url ++ ", params="
        ++ params ++ ", body=" ++ reqBody ++ "), status=" ++ toString status
        ++ ", response=" ++ text)) ∧
    fetch url params reqBody (.requestError details) =
      .error (.fetchError ("HTTP client error for request url=" ++ url
        ++ ". Details: " ++ details)) :=
  ⟨rfl, rfl⟩

/-- Claim C5: When an end date is present (and the 90-day check passes),
`get_orders` issues exactly one fetch with mode flag 0 ("since"
semantics) and keeps exactly the fetched records whose
`last_change_date` is at most the end of the end calendar day
(`date_to + 1 day - 1 second`); the kept records are a sublist of the
response, so their relative order is preserved. -/
theorem C5_theorem (current_date date_from dto : Int)
    (api : Int → Int → List OrderRec)
    (h : current_date - date_from ≤ 90) :
    get_orders current_date ⟨date_from, some dto⟩ api =
      (if (api date_from 0).filter
            (fun o => o.last_change_date ≤ dateToEnd dto) = []
        then .error emptyOrdersError
        else .ok ((api date_from 0).filter
          (fun o => o.last_change_date ≤ dateToEnd dto)), 1) ∧
    List.Sublist
      ((api date_from 0).filter (fun o => o.last_change_date ≤ dateToEnd dto))
      (api date_from 0) := by
  constructor
  · simp only [get_orders]
    rw [if_neg (not_lt.mpr h)]
    by_cases hc : (api date_from 0).filter
        (fun o => o.last_change_date ≤ dateToEnd dto) = []
    · rw [if_pos hc, if_pos hc]
    · rw [if_neg hc, if_neg hc]
  · exact List.filter_sublist _

/-- Witness for C5 at a concrete query. -/
theorem C5_witness :
    ((0 : Int) - 0 ≤ 90) ∧
    (get_orders 0 ⟨0, some 0⟩ (fun _ _ => [mkOrder 1 1]) =
      (if ((fun (_ : Int) (_ : Int) => [mkOrder 1 1]) 0 0).filter
            (fun o => o.last_change_date ≤ dateToEnd 0) = []
        then .error emptyOrdersError
        else .ok (((fun (_ : Int) (_ : Int) => [mkOrder 1 1]) 0 0).filter
          (fun o => o.last_change_date ≤ dateToEnd 0)), 1) ∧
    List.Sublist
      (((fun (_ : Int) (_ : Int) => [mkOrder 1 1]) 0 0).filter
        (fun o => o.last_change_date ≤ dateToEnd 0))
      (((fun (_ : Int) (_ : Int) => [mkOrder 1 1])) 0 0)) :=
  ⟨by decide, C5_theorem 0 0 0 (fun _ _ => [mkOrder 1 1]) (by decide)⟩

/-- Claim C9: Whenever the order collection is empty after the
fetch-and-filter step (and the 90-day check passed, so that step was
reached), `get_orders` fails with the empty-result `HTTPException`
rather than returning an empty report. -/
theorem C9_theorem (current_date : Int) (date_range : DateRangeQ)
    (api : Int → Int → List OrderRec)
    (h90 : current_date - date_range.date_from ≤ 90)
    (hE : fetched_then_filtered date_range api = []) :
    get_orders current_date date_range api = (.error emptyOrdersError, 1) := by
  obtain ⟨df, dto⟩ := date_range
  simp only [get_orders]
  rw [if_neg (not_lt.mpr h90)]
  cases dto with
  | some d =>
    simp only [fetched_then_filtered] at hE
    simp [hE]
  | none =>
    simp only [fetched_then_filtered] at hE
    simp [hE]

/-- Witness for C9: an empty upstream response turns into the
empty-result error. -/
theorem C9_witness :
    ((0 : Int) - 0 ≤ 90) ∧
    fetched_then_filtered ⟨0, none⟩ (fun _ _ => []) = [] ∧
    get_orders 0 ⟨0, none⟩ (fun _ _ => []) = (.error emptyOrdersError, 1) :=
  ⟨by decide, rfl, C9_theorem 0 ⟨0, none⟩ (fun _ _ => []) (by decide) rfl⟩

/-! ## Claims about the ABC aggregator -/

lemma filtered_eq_nil_iff (orders : List OrderRec) (ex : Bool) :
    filtered_orders orders ex = [] ↔
      (orders = [] ∨ (ex = true ∧ ∀ o ∈ orders, o.is_cancel = true)) := by
  unfold filtered_orders
  rw [List.filter_eq_nil_iff]
  cases ex with
  | false =>
    simp only [Bool.false_and, Bool.not_false, Bool.false_eq_true, false_and,
      or_false]
    constructor
    · intro h
      exact List.eq_nil_iff_forall_not_mem.mpr (fun o ho => h o ho (by simp))
    · intro h
      subst h
      intro o ho
      cases ho
  | true =>
    simp only [Bool.true_and, Bool.not_eq_eq_eq_not, Bool.not_true, true_and]
    constructor
    · intro h
      right
      intro o ho
      have := h o ho
      simpa using this
    · rintro (rfl | h)
      · intro o ho
        cases ho
      · intro o ho
        simpa using h o ho

lemma classify_eq_nil_iff (orders : List OrderRec) (ta tb : ℚ) (ex : Bool) :
    calculate_abc_analysis orders ta tb ex = [] ↔
      (filtered_orders orders ex = [] ∨
        total_revenue (filtered_orders orders ex) = 0) := by
  unfold calculate_abc_analysis
  by_cases h1 : filtered_orders orders ex = []
  · simp [h1]
  · rw [if_neg h1]
    by_cases h2 : total_revenue (filtered_orders orders ex) = 0
    · simp [h1, h2]
    · rw [if_neg h2]
      have hne : emit (total_revenue (filtered_orders orders ex)) ta tb 0
          (sortRevDesc (aggregate (filtered_orders orders ex))) ≠ [] :=
        emit_ne_nil (sortRevDesc_ne_nil (aggregate_ne_nil h1))
      simp [h1, h2, hne]

/-- Claim C8: `calculate_abc_analysis` returns an empty list — and, being a
total function, never an error — exactly when the input is empty, or
every record is cancelled while cancelled orders are excluded, or the
total of the per-product revenues (over the retained records) is exactly
zero. -/
theorem C8_theorem (orders : List OrderRec) (ta tb : ℚ) (ex : Bool) :
    calculate_abc_analysis orders ta tb ex = [] ↔
      (orders = [] ∨ (ex = true ∧ ∀ o ∈ orders, o.is_cancel = true) ∨
        total_revenue (filtered_orders orders ex) = 0) := by
  rw [classify_eq_nil_iff, filtered_eq_nil_iff, or_assoc]

/-! ## Concrete evaluations -/

lemma eval_c2 : calculate_abc_analysis [mkOrder 1 800, mkOrder 2 200] 80 95 true =
    [{ supplier_article := "", nm_id := 1, barcode := "", subject := "", brand := ""
       category := Category.A, orders_count := 1, revenue := 800
       revenue_share := 80, cumulative_share := 80 },
     { supplier_article := "", nm_id := 2, barcode := "", subject := "", brand := ""
       category := Category.C, orders_count := 1, revenue := 200
       revenue_share := 20, cumulative_share := 100 }] := by
  norm_num [calculate_abc_analysis, filtered_orders, mkOrder, total_revenue,
    aggregate, updateAssoc, updAgg, emptyAgg, sortRevDesc, List.insertionSort,
    List.orderedInsert, emit, round2,
    rhe_int (show (80000 : ℚ) = ((80000 : ℤ) : ℚ) by norm_num),
    rhe_int (show (8000 : ℚ) = ((8000 : ℤ) : ℚ) by norm_num),
    rhe_int (show (20000 : ℚ) = ((20000 : ℤ) : ℚ) by norm_num),
    rhe_int (show (2000 : ℚ) = ((2000 : ℤ) : ℚ) by norm_num),
    rhe_int (show (10000 : ℚ) = ((10000 : ℤ) : ℚ) by norm_num)]
  simp

lemma eval_single100 : calculate_abc_analysis [mkOrder 1 100] 80 95 true =
    [{ supplier_article := "", nm_id := 1, barcode := "", subject := "", brand := ""
       category := Category.C, orders_count := 1, revenue := 100
       revenue_share := 100, cumulative_share := 100 }] := by
  norm_num [calculate_abc_analysis, filtered_orders, mkOrder, total_revenue,
    aggregate, updateAssoc, updAgg, emptyAgg, sortRevDesc, List.insertionSort,
    List.orderedInsert, emit, round2,
    rhe_int (show (10000 : ℚ) = ((10000 : ℤ) : ℚ) by norm_num)]

lemma eval_single100_ta100 : calculate_abc_analysis [mkOrder 1 100] 100 100 true =
    [{ supplier_article := "", nm_id := 1, barcode := "", subject := "", brand := ""
       category := Category.A, orders_count := 1, revenue := 100
       revenue_share := 100, cumulative_share := 100 }] := by
  norm_num [calculate_abc_analysis, filtered_orders, mkOrder, total_revenue,
    aggregate, updateAssoc, updAgg, emptyAgg, sortRevDesc, List.insertionSort,
    List.orderedInsert, emit, round2,
    rhe_int (show (10000 : ℚ) = ((10000 : ℤ) : ℚ) by norm_num)]

lemma eval_c1 : calculate_abc_analysis [mkOrder 1 80004, mkOrder 2 19996] 80 95 true =
    [{ supplier_article := "", nm_id := 1, barcode := "", subject := "", brand := ""
       category := Category.B, orders_count := 1, revenue := 80004
       revenue_share := 80, cumulative_share := 80 },
     { supplier_article := "", nm_id := 2, barcode := "", subject := "", brand := ""
       category := Category.C, orders_count := 1, revenue := 19996
       revenue_share := 20, cumulative_share := 100 }] := by
  norm_num [calculate_abc_analysis, filtered_orders, mkOrder, total_revenue,
    aggregate, updateAssoc, updAgg, emptyAgg, sortRevDesc, List.insertionSort,
    List.orderedInsert, emit, round2,
    rhe_int (show (8000400 : ℚ) = ((8000400 : ℤ) : ℚ) by norm_num),
    rhe_int (show (1999600 : ℚ) = ((1999600 : ℤ) : ℚ) by norm_num),
    rhe_int (show (10000 : ℚ) = ((10000 : ℤ) : ℚ) by norm_num),
    (show roundHalfEven (40002 / 5 : ℚ) = 8000 from
      @rhe_lt_half (40002 / 5) 8000 (by norm_num) (by norm_num) (by norm_num)),
    (show roundHalfEven (9998 / 5 : ℚ) = 2000 from
      @rhe_gt_half (9998 / 5) 1999 (by norm_num) (by norm_num) (by norm_num))]
  simp

/-- Claim C1, counterexample: The claim ties the tier to the *emitted*
(rounded) `cumulative_share`.  With revenues 80004 and 19996 and the
default thresholds, the first product's unrounded cumulative share is
80.004 (> 80, so the code assigns tier "B"), yet its emitted
`cumulative_share` is the rounded 80.00 ≤ 80 — so an item with emitted
cumulative share ≤ thresholdA carries tier "B", not "A". -/
theorem C1_counterexample :
    ∃ item ∈ calculate_abc_analysis [mkOrder 1 80004, mkOrder 2 19996]
        80 95 true,
      item.cumulative_share ≤ 80 ∧ item.category ≠ Category.A := by
  refine ⟨(⟨"", 1, "", "", "", Category.B, 1, 80004, 80, 80⟩ : ABCItem),
    ?_, ?_, ?_⟩
  · rw [eval_c1]
    exact List.mem_cons_self _ _
  · norm_num
  · decide

/-- Claim C1, amended: For every emitted item there is an unrounded running
cumulative share `c` (whose two-decimal rounding is the emitted
`cumulativeShare`) such that the tier is "A" iff `c ≤ thresholdA`, "B"
iff `thresholdA < c ≤ thresholdB`, and "C" otherwise — the tier is
decided on the unrounded value, not on the emitted rounded one. -/
theorem C1_theorem (orders : List OrderRec) (ta tb : ℚ) (ex : Bool)
    (item : ABCItem) (h : item ∈ calculate_abc_analysis orders ta tb ex) :
    ∃ c, item.cumulative_share = round2 c ∧
      (item.category = Category.A ↔ c ≤ ta) ∧
      (item.category = Category.B ↔ ¬c ≤ ta ∧ c ≤ tb) ∧
      (item.category = Category.C ↔ ¬c ≤ ta ∧ ¬c ≤ tb) := by
  unfold calculate_abc_analysis at h
  by_cases h1 : filtered_orders orders ex = []
  · rw [if_pos h1] at h
    exact absurd h (List.not_mem_nil item)
  · rw [if_neg h1] at h
    by_cases h2 : total_revenue (filtered_orders orders ex) = 0
    · rw [if_pos h2] at h
      exact absurd h (List.not_mem_nil item)
    · rw [if_neg h2] at h
      obtain ⟨k, d, cc, _, _, _, _, _, _, _, _, _, hcum, hcat⟩ := emit_mem h
      refine ⟨cc, hcum, ?_, ?_, ?_⟩ <;> rw [hcat] <;>
        by_cases hta : cc ≤ ta <;> by_cases htb : cc ≤ tb <;>
        simp [hta, htb]

/-- Witness for C1 at a concrete input: a single product whose unrounded
cumulative share is 100, hence tier "C" under the default thresholds. -/
theorem C1_witness :
    ((⟨"", 1, "", "", "", Category.C, 1, 100, 100, 100⟩ : ABCItem) ∈
        calculate_abc_analysis [mkOrder 1 100] 80 95 true) ∧
    ∃ c, (⟨"", 1, "", "", "", Category.C, 1, 100, 100, 100⟩ : ABCItem).cumulative_share = round2 c ∧
      ((⟨"", 1, "", "", "", Category.C, 1, 100, 100, 100⟩ : ABCItem).category = Category.A ↔ c ≤ 80) ∧
      ((⟨"", 1, "", "", "", Category.C, 1, 100, 100, 100⟩ : ABCItem).category = Category.B ↔ ¬c ≤ 80 ∧ c ≤ 95) ∧
      ((⟨"", 1, "", "", "", Category.C, 1, 100, 100, 100⟩ : ABCItem).category = Category.C ↔ ¬c ≤ 80 ∧ ¬c ≤ 95) :=
  ⟨by rw [eval_single100]; exact List.mem_cons_self _ _,
   C1_theorem [mkOrder 1 100] 80 95 true _
     (by rw [eval_single100]; exact List.mem_cons_self _ _)⟩

/-- Claim C2, counterexample: In the 800/200 example the second product's
cumulative share is 100, which exceeds thresholdB = 95, so it gets tier
"C", not "B" as the claim states; likewise a single product consuming
100% of revenue gets tier "C" under the default thresholds, not "A". -/
theorem C2_counterexample :
    ((calculate_abc_analysis [mkOrder 1 800, mkOrder 2 200] 80 95 true).map
        ABCItem.category = [Category.A, Category.C] ∧
      Category.C ≠ Category.B) ∧
    ((calculate_abc_analysis [mkOrder 1 100] 80 95 true).map
        ABCItem.category = [Category.C] ∧
      Category.C ≠ Category.A) := by
  refine ⟨⟨?_, by decide⟩, ?_, by decide⟩
  · rw [eval_c2]
    rfl
  · rw [eval_single100]
    rfl

/-- Claim C2, amended: With thresholds 80/95, product X (revenue 800) is
emitted first with tier "A" (shares 80.00/80.00) and product Y (revenue
200) second with tier "C" (shares 20.00/100.00, and 100 > 95); a single
product consuming 100% of revenue is tier "A" only when
`thresholdA ≥ 100` (e.g. thresholds 100/100), otherwise it falls to the
tier its cumulative share 100 lands in. -/
theorem C2_theorem :
    calculate_abc_analysis [mkOrder 1 800, mkOrder 2 200] 80 95 true =
      [{ supplier_article := "", nm_id := 1, barcode := "", subject := ""
         brand := "", category := Category.A, orders_count := 1
         revenue := 800, revenue_share := 80, cumulative_share := 80 },
       { supplier_article := "", nm_id := 2, barcode := "", subject := ""
         brand := "", category := Category.C, orders_count := 1
         revenue := 200, revenue_share := 20, cumulative_share := 100 }] ∧
    calculate_abc_analysis [mkOrder 1 100] 100 100 true =
      [{ supplier_article := "", nm_id := 1, barcode := "", subject := ""
         brand := "", category := Category.A, orders_count := 1
         revenue := 100, revenue_share := 100, cumulative_share := 100 }] :=
  ⟨eval_c2, eval_single100_ta100⟩

lemma eval_c6cx : calculate_abc_analysis
    [{ nm_id := 1, supplier_article := "", barcode := "b1", subject := "s1"
       brand := "br1", price_with_disc := 10 },
     { nm_id := 1, supplier_article := "sku2", barcode := "b2", subject := "s2"
       brand := "br2", price_with_disc := 10 }] 80 95 true =
    [{ supplier_article := "sku2", nm_id := 1, barcode := "b2", subject := "s2"
       brand := "br2", category := Category.C, orders_count := 2
       revenue := 20, revenue_share := 100, cumulative_share := 100 }] := by
  norm_num [calculate_abc_analysis, filtered_orders, total_revenue,
    aggregate, updateAssoc, updAgg, emptyAgg, sortRevDesc, List.insertionSort,
    List.orderedInsert, emit, round2,
    rhe_int (show (2000 : ℚ) = ((2000 : ℤ) : ℚ) by norm_num),
    rhe_int (show (10000 : ℚ) = ((10000 : ℤ) : ℚ) by norm_num)]
  simp

/-- Claim C6, counterexample: The aggregation loop re-captures the
descriptive fields whenever the stored SKU is still empty.  With a first
record whose SKU is empty (barcode "b1") and a second record with SKU
"sku2" (barcode "b2") for the same product id, the emitted row carries
the *second* record's descriptive fields ("b2"), not the first record's
("b1") as the claim states. -/
theorem C6_counterexample :
    (calculate_abc_analysis
      [{ nm_id := 1, supplier_article := "", barcode := "b1", subject := "s1"
         brand := "br1", price_with_disc := 10 },
       { nm_id := 1, supplier_article := "sku2", barcode := "b2"
         subject := "s2", brand := "br2", price_with_disc := 10 }]
      80 95 true).map ABCItem.barcode = ["b2"] ∧ ("b2" : String) ≠ "b1" := by
  constructor
  · rw [eval_c6cx]
    rfl
  · decide

/-- Claim C6, amended: Each classification row carries the descriptive
fields (SKU, barcode, subject, brand) of `pickDesc` of its group among
the retained records: the first record of the group whose SKU
(`supplier_article`) is non-empty, or — when every record of the group
has an empty SKU — the last record of the group.  In particular, when the
group's first record has a non-empty SKU, that first record's fields are
kept and later records never overwrite them. -/
theorem C6_theorem (orders : List OrderRec) (ta tb : ℚ) (ex : Bool)
    (item : ABCItem) (h : item ∈ calculate_abc_analysis orders ta tb ex) :
    ∃ r, pickDesc ((filtered_orders orders ex).filter
        (fun o => o.nm_id = item.nm_id)) = some r ∧
      item.supplier_article = r.supplier_article ∧
      item.barcode = r.barcode ∧ item.subject = r.subject ∧
      item.brand = r.brand := by
  unfold calculate_abc_analysis at h
  by_cases h1 : filtered_orders orders ex = []
  · rw [if_pos h1] at h
    exact absurd h (List.not_mem_nil item)
  · rw [if_neg h1] at h
    by_cases h2 : total_revenue (filtered_orders orders ex) = 0
    · rw [if_pos h2] at h
      exact absurd h (List.not_mem_nil item)
    · rw [if_neg h2] at h
      obtain ⟨k, d, cc, hmem, hid, hart, hbar, hsub, hbra, _, _, _, _, _⟩ :=
        emit_mem h
      have hag : (k, d) ∈ aggregate (filtered_orders orders ex) :=
        (sortRevDesc_perm _).mem_iff.mp hmem
      obtain ⟨r, hr, hdesc⟩ := aggregate_desc hag
      have hcomp : d.supplier_article = r.supplier_article ∧
          d.barcode = r.barcode ∧ d.subject = r.subject ∧
          d.brand = r.brand := by
        unfold descOf descOfRec at hdesc
        simpa [Prod.ext_iff] using hdesc
      refine ⟨r, ?_, ?_, ?_, ?_, ?_⟩
      · rw [hid]
        exact hr
      · rw [hart, hcomp.1]
      · rw [hbar, hcomp.2.1]
      · rw [hsub, hcomp.2.2.1]
      · rw [hbra, hcomp.2.2.2]

lemma eval_c6w : calculate_abc_analysis
    [{ nm_id := 1, supplier_article := "sku", barcode := "bc", subject := "sub"
       brand := "br", price_with_disc := 1 }] 80 95 true =
    [{ supplier_article := "sku", nm_id := 1, barcode := "bc", subject := "sub"
       brand := "br", category := Category.C, orders_count := 1
       revenue := 1, revenue_share := 100, cumulative_share := 100 }] := by
  norm_num [calculate_abc_analysis, filtered_orders, total_revenue,
    aggregate, updateAssoc, updAgg, emptyAgg, sortRevDesc, List.insertionSort,
    List.orderedInsert, emit, round2,
    rhe_int (show (100 : ℚ) = ((100 : ℤ) : ℚ) by norm_num),
    rhe_int (show (10000 : ℚ) = ((10000 : ℤ) : ℚ) by norm_num)]

/-- Witness for C6 at a concrete input. -/
theorem C6_witness :
    ((⟨"sku", 1, "bc", "sub", "br", Category.C, 1, 1, 100, 100⟩ : ABCItem) ∈
      calculate_abc_analysis
        [{ nm_id := 1, supplier_article := "sku", barcode := "bc"
           subject := "sub", brand := "br", price_with_disc := 1 }]
        80 95 true) ∧
    ∃ r, pickDesc ((filtered_orders
        [{ nm_id := 1, supplier_article := "sku", barcode := "bc"
           subject := "sub", brand := "br", price_with_disc := 1 }] true).filter
        (fun o => o.nm_id =
          (⟨"sku", 1, "bc", "sub", "br", Category.C, 1, 1, 100, 100⟩
            : ABCItem).nm_id)) = some r ∧
      (⟨"sku", 1, "bc", "sub", "br", Category.C, 1, 1, 100, 100⟩
        : ABCItem).supplier_article = r.supplier_article ∧
      (⟨"sku", 1, "bc", "sub", "br", Category.C, 1, 1, 100, 100⟩
        : ABCItem).barcode = r.barcode ∧
      (⟨"sku", 1, "bc", "sub", "br", Category.C, 1, 1, 100, 100⟩
        : ABCItem).subject = r.subject ∧
      (⟨"sku", 1, "bc", "sub", "br", Category.C, 1, 1, 100, 100⟩
        : ABCItem).brand = r.brand :=
  ⟨by rw [eval_c6w]; exact List.mem_cons_self _ _,
   C6_theorem _ 80 95 true _
     (by rw [eval_c6w]; exact List.mem_cons_self _ _)⟩

lemma eval_c7cx : calculate_abc_analysis [mkOrder 1 200, mkOrder 2 (-100)]
    80 95 true =
    [{ supplier_article := "", nm_id := 1, barcode := "", subject := ""
       brand := "", category := Category.C, orders_count := 1
       revenue := 200, revenue_share := 200, cumulative_share := 200 },
     { supplier_article := "", nm_id := 2, barcode := "", subject := ""
       brand := "", category := Category.C, orders_count := 1
       revenue := -100, revenue_share := -100, cumulative_share := 100 }] := by
  norm_num [calculate_abc_analysis, filtered_orders, mkOrder, total_revenue,
    aggregate, updateAssoc, updAgg, emptyAgg, sortRevDesc, List.insertionSort,
    List.orderedInsert, emit, round2,
    rhe_int (show (20000 : ℚ) = ((20000 : ℤ) : ℚ) by norm_num),
    rhe_int (show (-10000 : ℚ) = ((-10000 : ℤ) : ℚ) by norm_num),
    rhe_int (show (10000 : ℚ) = ((10000 : ℤ) : ℚ) by norm_num)]
  simp

/-- Claim C7, counterexample: The claim asserts, for every non-empty
output, that `cumulativeShare` is non-decreasing.  With revenues 200 and
-100 (a negative `price_with_disc` is accepted by the code), the emitted
cumulative shares are 200.00 followed by 100.00 — strictly decreasing. -/
theorem C7_counterexample :
    (calculate_abc_analysis [mkOrder 1 200, mkOrder 2 (-100)] 80 95 true).map
      ABCItem.cumulative_share = [200, 100] ∧ ¬((200 : ℚ) ≤ 100) := by
  constructor
  · rw [eval_c7cx]
    rfl
  · norm_num

/-- Claim C7, amended: When every retained record has a nonnegative
`price_with_disc`, the output is ordered by (rounded) revenue
descending, the emitted `cumulative_share` is non-decreasing, and the
final entry's `cumulative_share` is exactly 100.00 (in the exact-rational
model of float arithmetic). -/
theorem C7_theorem (orders : List OrderRec) (ta tb : ℚ) (ex : Bool)
    (hpos : ∀ o ∈ filtered_orders orders ex, 0 ≤ o.price_with_disc) :
    (calculate_abc_analysis orders ta tb ex).Pairwise
      (fun a b => b.revenue ≤ a.revenue) ∧
    (calculate_abc_analysis orders ta tb ex).Pairwise
      (fun a b => a.cumulative_share ≤ b.cumulative_share) ∧
    (∀ itm, (calculate_abc_analysis orders ta tb ex).getLast? = some itm →
      itm.cumulative_share = 100) := by
  unfold calculate_abc_analysis
  by_cases h1 : filtered_orders orders ex = []
  · simp [h1]
  · rw [if_neg h1]
    by_cases h2 : total_revenue (filtered_orders orders ex) = 0
    · simp [h2]
    · rw [if_neg h2]
      have hrevnn : ∀ p ∈ aggregate (filtered_orders orders ex),
          0 ≤ p.2.revenue := aggregate_revenue_nonneg hpos
      have htot_nn : 0 ≤ total_revenue (filtered_orders orders ex) := by
        rw [total_revenue_eq_sum]
        apply List.sum_nonneg
        intro x hx
        obtain ⟨p, hp, rfl⟩ := List.mem_map.mp hx
        exact hrevnn p hp
      have hsh : ∀ p ∈ sortRevDesc (aggregate (filtered_orders orders ex)),
          0 ≤ p.2.revenue / total_revenue (filtered_orders orders ex) * 100 := by
        intro p hp
        have hmem : p ∈ aggregate (filtered_orders orders ex) :=
          (sortRevDesc_perm _).mem_iff.mp hp
        exact mul_nonneg (div_nonneg (hrevnn p hmem) htot_nn) (by norm_num)
      refine ⟨?_, emit_pairwise_cum hsh 0, ?_⟩
      · have hp2 : (sortRevDesc (aggregate (filtered_orders orders ex))).Pairwise
            (fun a b => round2 b.2.revenue ≤ round2 a.2.revenue) :=
          (sortRevDesc_sorted _).imp (fun hab => round2_mono hab)
        have hp3 : ((sortRevDesc (aggregate (filtered_orders orders ex))).map
            (fun p => round2 p.2.revenue)).Pairwise (fun x y => y ≤ x) :=
          List.pairwise_map.mpr hp2
        have h4 : (emit (total_revenue (filtered_orders orders ex)) ta tb 0
            (sortRevDesc (aggregate (filtered_orders orders ex)))).map
              ABCItem.revenue =
            (sortRevDesc (aggregate (filtered_orders orders ex))).map
              (fun p => round2 p.2.revenue) := emit_map_revenue 0 _
        rw [← h4] at hp3
        exact List.pairwise_map.mp hp3
      · intro itm hlast
        have hne : sortRevDesc (aggregate (filtered_orders orders ex)) ≠ [] :=
          sortRevDesc_ne_nil (aggregate_ne_nil h1)
        obtain ⟨itm', hl', hcum'⟩ :=
          @emit_getLast_cum (total_revenue (filtered_orders orders ex)) ta tb
            (sortRevDesc (aggregate (filtered_orders orders ex))) 0 hne
        obtain rfl : itm = itm' := Option.some.injEq .. ▸ (hlast.symm.trans hl')
        rw [hcum']
        have hfun : ((sortRevDesc (aggregate (filtered_orders orders ex))).map
            (fun p => p.2.revenue / total_revenue (filtered_orders orders ex)
              * 100)).sum =
            ((sortRevDesc (aggregate (filtered_orders orders ex))).map
              (fun p => p.2.revenue *
                (100 / total_revenue (filtered_orders orders ex)))).sum := by
          congr 1
          apply List.map_congr_left
          intro p _
          ring
        rw [hfun, List.sum_map_mul_right]
        have hsum : ((sortRevDesc (aggregate (filtered_orders orders ex))).map
            (fun p => p.2.revenue)).sum =
            total_revenue (filtered_orders orders ex) := by
          rw [total_revenue_eq_sum]
          exact ((sortRevDesc_perm _).map _).sum_eq
        rw [hsum]
        have hdiv : total_revenue (filtered_orders orders ex) *
            (100 / total_revenue (filtered_orders orders ex)) = 100 := by
          field_simp
        rw [hdiv, show (0 : ℚ) + 100 = 100 by ring]
        unfold round2
        rw [rhe_int (show (100 : ℚ) * 100 = ((10000 : ℤ) : ℚ) by norm_num)]
        norm_num

/-- Witness for C7 at a concrete input with nonnegative prices. -/
theorem C7_witness :
    (∀ o ∈ filtered_orders [mkOrder 1 80, mkOrder 2 20] true,
      0 ≤ o.price_with_disc) ∧
    ((calculate_abc_analysis [mkOrder 1 80, mkOrder 2 20] 80 95 true).Pairwise
      (fun a b => b.revenue ≤ a.revenue) ∧
    (calculate_abc_analysis [mkOrder 1 80, mkOrder 2 20] 80 95 true).Pairwise
      (fun a b => a.cumulative_share ≤ b.cumulative_share) ∧
    (∀ itm, (calculate_abc_analysis [mkOrder 1 80, mkOrder 2 20] 80 95
        true).getLast? = some itm → itm.cumulative_share = 100)) := by
  constructor
  · rw [show filtered_orders [mkOrder 1 80, mkOrder 2 20] true =
      [mkOrder 1 80, mkOrder 2 20] from rfl]
    intro o ho
    rcases List.mem_cons.mp ho with rfl | ho2
    · norm_num [mkOrder]
    · rcases List.mem_cons.mp ho2 with rfl | ho3
      · norm_num [mkOrder]
      · cases ho3
  · exact C7_theorem [mkOrder 1 80, mkOrder 2 20] 80 95 true (by
      rw [show filtered_orders [mkOrder 1 80, mkOrder 2 20] true =
        [mkOrder 1 80, mkOrder 2 20] from rfl]
      intro o ho
      rcases List.mem_cons.mp ho with rfl | ho2
      · norm_num [mkOrder]
      · rcases List.mem_cons.mp ho2 with rfl | ho3
        · norm_num [mkOrder]
        · cases ho3)

/-- Concrete input for the C10 counterexample: product 1's first record is
cancelled, so in the retained list product 2 is encountered first. -/
def c10orders : List OrderRec :=
  [{ nm_id := 1, price_with_disc := 5, is_cancel := true },
   mkOrder 2 10, mkOrder 1 10]

lemma eval_c10cx : calculate_abc_analysis c10orders 80 95 true =
    [{ supplier_article := "", nm_id := 2, barcode := "", subject := ""
       brand := "", category := Category.A, orders_count := 1
       revenue := 10, revenue_share := 50, cumulative_share := 50 },
     { supplier_article := "", nm_id := 1, barcode := "", subject := ""
       brand := "", category := Category.C, orders_count := 1
       revenue := 10, revenue_share := 50, cumulative_share := 100 }] := by
  norm_num [c10orders, calculate_abc_analysis, filtered_orders, mkOrder,
    total_revenue, aggregate, updateAssoc, updAgg, emptyAgg, sortRevDesc,
    List.insertionSort, List.orderedInsert, emit, round2,
    rhe_int (show (1000 : ℚ) = ((1000 : ℤ) : ℚ) by norm_num),
    rhe_int (show (5000 : ℚ) = ((5000 : ℤ) : ℚ) by norm_num),
    rhe_int (show (10000 : ℚ) = ((10000 : ℤ) : ℚ) by norm_num)]
  simp

/-- Claim C10, counterexample: The claim ties the tie-break order to the
first encounter in the *input* list.  In `c10orders` product 1 appears
first in the input (index 0, a cancelled record) and product 2 second,
and the two aggregated revenues are equal (10 each); yet the output
emits product 2 before product 1, because the aggregation order follows
the *retained* (cancellation-filtered) list. -/
theorem C10_counterexample :
    (calculate_abc_analysis c10orders 80 95 true).map ABCItem.nm_id =
      [2, 1] ∧
    c10orders.map OrderRec.nm_id = [1, 2, 1] ∧
    (lookupAgg 1 (aggregate (filtered_orders c10orders true))).map
        Agg.revenue =
      (lookupAgg 2 (aggregate (filtered_orders c10orders true))).map
        Agg.revenue := by
  refine ⟨?_, rfl, ?_⟩
  · rw [eval_c10cx]
    rfl
  · norm_num [c10orders, filtered_orders, mkOrder, aggregate, updateAssoc,
      updAgg, emptyAgg, lookupAgg]

/-- Claim C10, amended: When two products have equal aggregated revenue,
they are emitted in the order their product id was first encountered in
the *retained* list (the input after cancelled-order exclusion); the
output is still a deterministic function of the input list.  The
hypothesis decomposes the retained id sequence as `l1 ++ p :: l2` with
`p, q ∉ l1` and `q ∈ l2`, i.e. `p`'s first encounter precedes `q`'s. -/
theorem C10_theorem (orders : List OrderRec) (ta tb : ℚ) (ex : Bool)
    (p q : Int) (ap aq : Agg) (l1 l2 : List Int) (hpq : p ≠ q)
    (hsplit : (filtered_orders orders ex).map OrderRec.nm_id = l1 ++ p :: l2)
    (hpl1 : p ∉ l1) (hql1 : q ∉ l1) (hql2 : q ∈ l2)
    (hlp : lookupAgg p (aggregate (filtered_orders orders ex)) = some ap)
    (hlq : lookupAgg q (aggregate (filtered_orders orders ex)) = some aq)
    (hrev : ap.revenue = aq.revenue)
    (htot : total_revenue (filtered_orders orders ex) ≠ 0) :
    List.Sublist [p, q]
      ((calculate_abc_analysis orders ta tb ex).map ABCItem.nm_id) := by
  have hfs_ne : filtered_orders orders ex ≠ [] := by
    intro hc
    rw [hc] at hsplit
    exact absurd hsplit.symm (by simp)
  have hkeys : List.Sublist [p, q]
      (keysOf (aggregate (filtered_orders orders ex))) := by
    apply keys_foldl_pair_sublist (filtered_orders orders ex) [] p q hpq
    right; right
    exact ⟨by simp [keysOf], by simp [keysOf], l1, l2, hsplit, hpl1, hql1, hql2⟩
  have hpairs : List.Sublist [(p, ap), (q, aq)]
      (aggregate (filtered_orders orders ex)) :=
    pair_sublist_of_keys (aggregate_keys_nodup _) hkeys hlp hlq
  have hsorted : List.Sublist [(p, ap), (q, aq)]
      (sortRevDesc (aggregate (filtered_orders orders ex))) :=
    List.pair_sublist_insertionSort (le_of_eq hrev.symm) hpairs
  have hmapped : List.Sublist [p, q]
      ((sortRevDesc (aggregate (filtered_orders orders ex))).map Prod.fst) := by
    have h := hsorted.map Prod.fst
    simpa using h
  unfold calculate_abc_analysis
  rw [if_neg hfs_ne, if_neg htot, emit_map_nm_id]
  exact hmapped

/-- Witness for C10: two distinct products with equal revenue 10, product
1 first; its row precedes product 2's in the output. -/
theorem C10_witness :
    ((1 : Int) ≠ 2) ∧
    ((filtered_orders [mkOrder 1 10, mkOrder 2 10] true).map OrderRec.nm_id
      = [] ++ 1 :: [2]) ∧
    ((1 : Int) ∉ ([] : List Int)) ∧ ((2 : Int) ∉ ([] : List Int)) ∧
    ((2 : Int) ∈ [(2 : Int)]) ∧
    (lookupAgg 1 (aggregate (filtered_orders [mkOrder 1 10, mkOrder 2 10]
      true)) = some ⟨"", "", "", "", 1, 10⟩) ∧
    (lookupAgg 2 (aggregate (filtered_orders [mkOrder 1 10, mkOrder 2 10]
      true)) = some ⟨"", "", "", "", 1, 10⟩) ∧
    ((⟨"", "", "", "", 1, 10⟩ : Agg).revenue =
      (⟨"", "", "", "", 1, 10⟩ : Agg).revenue) ∧
    (total_revenue (filtered_orders [mkOrder 1 10, mkOrder 2 10] true) ≠ 0) ∧
    List.Sublist [1, 2]
      ((calculate_abc_analysis [mkOrder 1 10, mkOrder 2 10] 80 95 true).map
        ABCItem.nm_id) := by
  have hlp : lookupAgg 1 (aggregate (filtered_orders
      [mkOrder 1 10, mkOrder 2 10] true)) = some ⟨"", "", "", "", 1, 10⟩ := by
    norm_num [filtered_orders, mkOrder, aggregate, updateAssoc, updAgg,
      emptyAgg, lookupAgg]
  have hlq : lookupAgg 2 (aggregate (filtered_orders
      [mkOrder 1 10, mkOrder 2 10] true)) = some ⟨"", "", "", "", 1, 10⟩ := by
    norm_num [filtered_orders, mkOrder, aggregate, updateAssoc, updAgg,
      emptyAgg, lookupAgg]
  have htot : total_revenue (filtered_orders [mkOrder 1 10, mkOrder 2 10]
      true) ≠ 0 := by
    norm_num [filtered_orders, mkOrder, total_revenue, aggregate,
      updateAssoc, updAgg, emptyAgg]
  refine ⟨by decide, rfl, by simp, by simp, by simp, hlp, hlq, rfl, htot, ?_⟩
  exact C10_theorem [mkOrder 1 10, mkOrder 2 10] 80 95 true 1 2
    ⟨"", "", "", "", 1, 10⟩ ⟨"", "", "", "", 1, 10⟩ [] [2]
    (by decide) rfl (by simp) (by simp) (by simp) hlp hlq rfl htot

end WB
